import Mathlib

/-!
Verification development for the OSUSat EPS firmware core
(`src/eps/firmware/services`): the fault-aggregation / health engine
(`redundancy_manager.c`), the UART packet reassembly state machine
(`uart_events.c`), and the logging failover policy (`logging.c`).

Each C function of interest is shallowly embedded as an executable Lean
function over explicit state records.  Fixed-size C arrays become lists of
the corresponding length; stateful handlers become functions
`state → state × published events`.  External collaborators that are not part
of the repository (the `osusat` event bus, the packet codec in `packet.h`)
appear only through their dataflow: published events are collected in lists,
and the packet codec is a parameter of the reassembly machine.
-/

namespace OSUSat

/-! ## Generic list helpers (array index update / first-match search)

`updateAt i g l` mirrors a C in-place update `l[i] = g(l[i])`; out-of-range
indices leave the list unchanged, which never happens at the call sites below
(the C code only writes indices produced by a bounded scan).
`findSlot p l` mirrors a C `for` loop that returns the first index whose
entry satisfies `p`, or falls through (`none`). -/

def updateAt {α : Type} (i : Nat) (g : α → α) (l : List α) : List α :=
  match i, l with
  | _, [] => []
  | 0, x :: xs => g x :: xs
  | i + 1, x :: xs => x :: updateAt i g xs

def findSlot {α : Type} (p : α → Bool) : List α → Option Nat
  | [] => none
  | x :: xs => if p x then some 0 else (findSlot p xs).map (· + 1)

theorem updateAt_nil {α : Type} (i : Nat) (g : α → α) : updateAt i g [] = [] := by
  cases i <;> rfl

theorem updateAt_cons_zero {α : Type} (g : α → α) (x : α) (xs : List α) :
    updateAt 0 g (x :: xs) = g x :: xs := rfl

theorem updateAt_cons_succ {α : Type} (i : Nat) (g : α → α) (x : α) (xs : List α) :
    updateAt (i + 1) g (x :: xs) = x :: updateAt i g xs := rfl

theorem mem_updateAt {α : Type} (i : Nat) (g : α → α) :
    ∀ (l : List α) (y : α), y ∈ updateAt i g l → y ∈ l ∨ ∃ z, z ∈ l ∧ y = g z := by
  intro l
  induction l generalizing i with
  | nil => intro y hy; simp [updateAt] at hy
  | cons x xs ih =>
    intro y hy
    cases i with
    | zero =>
      rw [updateAt_cons_zero] at hy
      rcases List.mem_cons.mp hy with h | h
      · exact Or.inr ⟨x, List.mem_cons_self x xs, h⟩
      · exact Or.inl (List.mem_cons_of_mem _ h)
    | succ i =>
      rw [updateAt_cons_succ] at hy
      rcases List.mem_cons.mp hy with h | h
      · exact Or.inl (h ▸ List.mem_cons_self x xs)
      · rcases ih i y h with h' | ⟨z, hz, hyz⟩
        · exact Or.inl (List.mem_cons_of_mem _ h')
        · exact Or.inr ⟨z, List.mem_cons_of_mem _ hz, hyz⟩

theorem findSlot_eq_none {α : Type} (p : α → Bool) :
    ∀ l : List α, (∀ x ∈ l, p x = false) → findSlot p l = none := by
  intro l
  induction l with
  | nil => intro _; rfl
  | cons x xs ih =>
    intro h
    have hx : p x = false := h x (List.mem_cons_self x xs)
    simp only [findSlot, hx, if_neg Bool.false_ne_true]
    rw [ih fun y hy => h y (List.mem_cons_of_mem _ hy)]
    rfl

theorem findSlot_none_forall {α : Type} (p : α → Bool) :
    ∀ l : List α, findSlot p l = none → ∀ x ∈ l, p x = false := by
  intro l
  induction l with
  | nil => intro _ x hx; simp at hx
  | cons x xs ih =>
    intro h y hy
    by_cases hx : p x
    · simp [findSlot, hx] at h
    · simp only [findSlot, hx, if_neg Bool.false_ne_true, Option.map_eq_none'] at h
      rcases List.mem_cons.mp hy with rfl | hmem
      · exact Bool.eq_false_iff.mpr hx
      · exact ih h y hmem

/-! ## Fault & Health Engine data model (`redundancy_manager.h`) -/

/-- `fault_source_t`: the subsystem reporting a failure.  `srcCount` embeds the
`FAULT_SOURCE_COUNT` sentinel, which the code stores in status responses to
mean "no fault". -/
inductive FaultSource where
  | battery | mppt | rail | sensor | uart | watchdog | memoryBank | srcCount
  deriving DecidableEq, Repr

/-- `fault_severity_t`. -/
inductive FaultSeverity where
  | info | warning | degraded | critical
  deriving DecidableEq, Repr

/-- `system_health_t`. -/
inductive SystemHealth where
  | ok | degraded | fault
  deriving DecidableEq, Repr

/-- `REDUNDANCY_MANAGER_MAX_FAULTS`. -/
def maxFaults : Nat := 16

/-- `COMPONENT_COUNT` (12 enumerated components in `component_id_t`). -/
def componentCount : Nat := 12

/-- `COMPONENT_UART_PRIMARY` (first enumerator of `component_id_t`). -/
def componentUartPrimary : Nat := 0

/-- `fault_t`. -/
structure Fault where
  source : FaultSource
  code : Nat
  severity : FaultSeverity
  timestamp_ms : Nat
  count : Nat
  active : Bool
  deriving DecidableEq, Repr

/-- The all-zero `fault_t` produced by `memset(manager, 0, ...)` in
`redundancy_manager_init`. -/
def zeroFault : Fault :=
  { source := .battery, code := 0, severity := .info,
    timestamp_ms := 0, count := 0, active := false }

/-- `redundancy_manager_t`.  The fixed `faults[16]` array is a list (length 16
at init, preserved by every operation); `component_status` likewise embeds the
`bool component_status[COMPONENT_COUNT]` array. -/
structure Manager where
  faults : List Fault
  health : SystemHealth
  component_status : List Bool
  total_fault_count : Nat
  initialized : Bool
  deriving DecidableEq, Repr

/-- `health_response_t`. -/
structure HealthResponse where
  health : SystemHealth
  active_fault_count : Nat
  timestamp_ms : Nat
  deriving DecidableEq, Repr

/-- `component_status_response_t`. -/
structure ComponentStatusResponse where
  component : Nat
  is_ok : Bool
  fault_source : FaultSource
  timestamp_ms : Nat
  deriving DecidableEq, Repr

/-- `fault_list_response_t`.  The fixed `faults[4]` array is embedded as the
list of its `faults_in_chunk` valid entries (the C code never reads past that
count; stale tail bytes of the array are unobservable). -/
structure FaultListResponse where
  total_faults : Nat
  chunk_index : Nat
  faults_in_chunk : Nat
  faults : List Fault
  deriving DecidableEq, Repr

/-- `component_degradation_t`. -/
structure ComponentDegradation where
  component : Nat
  fault_source : FaultSource
  fallback_available : Bool
  deriving DecidableEq, Repr

/-- Events published by the redundancy manager on the `osusat` event bus. -/
inductive RMEvent where
  | criticalHealth (h : SystemHealth)
  | healthDegraded (h : SystemHealth)
  | healthRecovered (h : SystemHealth)
  | componentDegraded (d : ComponentDegradation)
  | healthResponse (r : HealthResponse)
  | componentStatusResponse (r : ComponentStatusResponse)
  | faultListResponse (r : FaultListResponse)
  deriving DecidableEq, Repr

/-- The three health-edge events (`REDUNDANCY_EVENT_CRITICAL_HEALTH`,
`..._HEALTH_DEGRADED`, `..._HEALTH_RECOVERED`). -/
def RMEvent.isHealthChange : RMEvent → Bool
  | .criticalHealth _ => true
  | .healthDegraded _ => true
  | .healthRecovered _ => true
  | _ => false

/-- State after `redundancy_manager_init` (`memset` to zero, health `OK`,
`component_status[i] = true`, `initialized = true`). -/
def initManager : Manager :=
  { faults := List.replicate maxFaults zeroFault
    health := .ok
    component_status := List.replicate componentCount true
    total_fault_count := 0
    initialized := true }

/-! ## `redundancy_manager_evaluate_health` -/

/-- Severity test `severity == FAULT_SEVERITY_CRITICAL`. -/
def sevIsCrit : FaultSeverity → Bool
  | .critical => true
  | _ => false

/-- Severity test `severity == FAULT_SEVERITY_DEGRADED`. -/
def sevIsDeg : FaultSeverity → Bool
  | .degraded => true
  | _ => false

/-- The scan loop of `redundancy_manager_evaluate_health`: walks the fault
table carrying `has_critical`/`has_degraded`, breaking out of the loop at the
first active critical entry. -/
def evalScan : List Fault → Bool → Bool → Bool × Bool
  | [], hc, hd => (hc, hd)
  | f :: fs, hc, hd =>
    if f.active then
      if sevIsCrit f.severity then (true, hd)
      else if sevIsDeg f.severity then evalScan fs hc true
      else evalScan fs hc hd
    else evalScan fs hc hd

/-- `redundancy_manager_evaluate_health`. -/
def evaluateHealth (m : Manager) : SystemHealth :=
  let r := evalScan m.faults false false
  if r.1 then .fault else if r.2 then .degraded else .ok

/-- Specification-side reduction (§3 of the spec): health computed from the
active entries alone — `Fault` on any critical, else `Degraded` on any
degraded, else `Ok`. -/
def healthFromActive (l : List Fault) : SystemHealth :=
  if l.any (fun f => sevIsCrit f.severity) then .fault
  else if l.any (fun f => sevIsDeg f.severity) then .degraded
  else .ok

theorem evalScan_fst (l : List Fault) :
    ∀ hc hd, (evalScan l hc hd).1 = (hc || l.any (fun f => f.active && sevIsCrit f.severity)) := by
  induction l with
  | nil => intro hc hd; simp [evalScan]
  | cons f fs ih =>
    intro hc hd
    by_cases ha : f.active
    · by_cases hcrit : sevIsCrit f.severity
      · simp [evalScan, ha, hcrit]
      · by_cases hdeg : sevIsDeg f.severity
        · simp [evalScan, ha, hcrit, hdeg, ih]
        · simp [evalScan, ha, hcrit, hdeg, ih]
    · simp [evalScan, ha, ih]

theorem evalScan_snd (l : List Fault) :
    ∀ hc hd, l.any (fun f => f.active && sevIsCrit f.severity) = false →
      (evalScan l hc hd).2 = (hd || l.any (fun f => f.active && sevIsDeg f.severity)) := by
  induction l with
  | nil => intro hc hd _; simp [evalScan]
  | cons f fs ih =>
    intro hc hd h
    simp only [List.any_cons, Bool.or_eq_false_iff] at h
    by_cases ha : f.active
    · have hcrit : sevIsCrit f.severity = false := by
        rcases h with ⟨h1, _⟩
        simpa [ha] using h1
      by_cases hdeg : sevIsDeg f.severity
      · simp [evalScan, ha, hcrit, hdeg, ih _ _ h.2]
      · simp [evalScan, ha, hcrit, hdeg, ih _ _ h.2]
    · simp [evalScan, ha, ih _ _ h.2]

theorem any_filter_active (p : Fault → Bool) (l : List Fault) :
    (l.filter (fun f => f.active)).any p = l.any (fun f => f.active && p f) := by
  induction l with
  | nil => rfl
  | cons f fs ih =>
    by_cases ha : f.active
    · simp [List.filter_cons, ha, ih]
    · simp [List.filter_cons, ha, ih]

/-- **C1.** For every fault-table state, `redundancy_manager_evaluate_health`
returns `Fault` if any active entry is `Critical`, else `Degraded` if any
active entry is `Degraded`, else `Ok` — active `Info`/`Warning` entries alone
yield `Ok` — and the result factors through the list of active entries, so it
depends only on them. -/
theorem evaluateHealth_eq_healthFromActive (m : Manager) :
    evaluateHealth m = healthFromActive (m.faults.filter (fun f => f.active)) := by
  unfold evaluateHealth healthFromActive
  rw [any_filter_active, any_filter_active]
  by_cases hcrit : m.faults.any (fun f => f.active && sevIsCrit f.severity)
  · simp [evalScan_fst, hcrit]
  · have hc : m.faults.any (fun f => f.active && sevIsCrit f.severity) = false :=
      Bool.eq_false_iff.mpr hcrit
    simp [evalScan_fst, evalScan_snd _ _ _ hc, hc]

/-! ## `redundancy_manager_add_fault` / `redundancy_manager_remove_fault` -/

/-- The first loop condition of `redundancy_manager_add_fault` /
`redundancy_manager_remove_fault`:
`faults[i].active && faults[i].source == source && faults[i].code == code`. -/
def activeKey (s : FaultSource) (c : Nat) (f : Fault) : Bool :=
  f.active && (decide (f.source = s) && decide (f.code = c))

/-- Outcome of `redundancy_manager_add_fault`: which of its three branches
returned.  `tableFull` corresponds to falling through both loops and issuing
the non-fatal `LOG_ERROR("Fault table full, ...")`. -/
inductive AddResult where
  | incremented | added | tableFull
  deriving DecidableEq, Repr

/-- `count++` on a matching active entry. -/
def bumpCount (f : Fault) : Fault := { f with count := f.count + 1 }

/-- `redundancy_manager_add_fault(manager, source, code, severity)` with
`hal_time_get_ms()` supplied as `now`.  First scan: an active entry with the
same `(source, code)` gets `count++` and the function returns.  Second scan:
the first inactive slot receives the new fault and `total_fault_count++`.
Otherwise the table is full and the state is untouched. -/
def rmAddFault (m : Manager) (s : FaultSource) (c : Nat) (sev : FaultSeverity)
    (now : Nat) : Manager × AddResult :=
  match findSlot (activeKey s c) m.faults with
  | some i => ({ m with faults := updateAt i bumpCount m.faults }, .incremented)
  | none =>
    match findSlot (fun f => !f.active) m.faults with
    | some i =>
      ({ m with
          faults := updateAt i (fun _ =>
            { source := s, code := c, severity := sev,
              timestamp_ms := now, count := 1, active := true }) m.faults
          total_fault_count := m.total_fault_count + 1 }, .added)
    | none => (m, .tableFull)

/-- `redundancy_manager_remove_fault`: marks the first matching active entry
inactive, returning whether anything was cleared. -/
def rmRemoveFault (m : Manager) (s : FaultSource) (c : Nat) : Manager × Bool :=
  match findSlot (activeKey s c) m.faults with
  | some i => ({ m with faults := updateAt i (fun f => { f with active := false }) m.faults }, true)
  | none => (m, false)

theorem activeKey_eq_false {s : FaultSource} {c : Nat} {f : Fault}
    (h : ¬(f.active = true ∧ f.source = s ∧ f.code = c)) : activeKey s c f = false := by
  unfold activeKey
  by_cases ha : f.active
  · by_cases hs : f.source = s
    · have hc : ¬ f.code = c := fun hc => h ⟨ha, hs, hc⟩
      simp [ha, hs, hc]
    · simp [ha, hs]
  · simp [ha]

/-- **C3.** With every one of the 16 slots holding an active entry, reporting a
fault whose `(source, code)` differs from every entry leaves the manager state
completely unchanged — nothing is evicted or overwritten — and the routine
signals the non-fatal table-full condition (the `LOG_ERROR` branch), rather
than crashing or halting. -/
theorem rmAddFault_table_full (m : Manager) (s : FaultSource) (c : Nat)
    (sev : FaultSeverity) (now : Nat)
    (_hlen : m.faults.length = maxFaults)
    (hact : ∀ f ∈ m.faults, f.active = true)
    (hdis : ∀ f ∈ m.faults, ¬(f.source = s ∧ f.code = c)) :
    rmAddFault m s c sev now = (m, .tableFull) := by
  have h1 : findSlot (activeKey s c) m.faults = none := by
    apply findSlot_eq_none
    intro f hf
    exact activeKey_eq_false fun h => hdis f hf h.2
  have h2 : findSlot (fun f : Fault => !f.active) m.faults = none := by
    apply findSlot_eq_none
    intro f hf
    simp [hact f hf]
  simp [rmAddFault, h1, h2]

/-- Concrete full table used by the witness: 16 distinct active faults. -/
def fullManager : Manager :=
  { initManager with
      faults := (List.range maxFaults).map fun i =>
        { source := .battery, code := i, severity := .warning,
          timestamp_ms := 0, count := 1, active := true } }

/-- Witness for C3: the concrete full table satisfies the hypotheses, and the
17th, distinct fault is dropped with a table-full signal. -/
theorem rmAddFault_table_full_witness :
    (fullManager.faults.length = maxFaults ∧
      (∀ f ∈ fullManager.faults, f.active = true) ∧
      (∀ f ∈ fullManager.faults, ¬(f.source = .mppt ∧ f.code = 999))) ∧
    rmAddFault fullManager .mppt 999 .critical 7 = (fullManager, .tableFull) :=
  ⟨⟨by decide, by decide, by decide⟩,
    rmAddFault_table_full fullManager .mppt 999 .critical 7
      (by decide) (by decide) (by decide)⟩

/-! ## Event handlers of `redundancy_manager.c`

Each handler is embedded as `Manager → args → Manager × List RMEvent`,
collecting the `osusat_event_bus_publish` calls it makes, in order.
Only the handlers actually subscribed in `redundancy_manager_init` are
modelled as reachable steps: the tick handler (telemetry only, no fault-table
mutation), the five `APP_EVENT_REQUEST_*` request handlers, and the battery
fault handler for `BATTERY_EVENT_FAULT_DETECTED` / `BATTERY_EVENT_CRITICAL_LOW`
(the MPPT / rail / UART fault subscriptions are commented out in the source).
-/

/-- `redundancy_manager_publish_health_change`: stores the new health and
publishes the matching edge event. -/
def healthChangeEvent (h : SystemHealth) : RMEvent :=
  match h with
  | .fault => .criticalHealth .fault
  | .degraded => .healthDegraded .degraded
  | .ok => .healthRecovered .ok

/-- The `if (new_health != manager->health) publish_health_change(...)` pattern
shared by every mutation path. -/
def applyHealthUpdate (m : Manager) (nh : SystemHealth) : Manager × List RMEvent :=
  if nh ≠ m.health then ({ m with health := nh }, [healthChangeEvent nh])
  else (m, [])

/-- The two battery fault events the manager subscribes to. -/
inductive BatteryEvt where
  | faultDetected | criticalLow
  deriving DecidableEq, Repr

/-- `OSUSAT_GET_LOCAL_CODE(e->id)` for the two subscribed battery events: the
local event code from `battery_event_id_t` (`BATTERY_FAULT_DETECTED = 0x10`,
`BATTERY_CRITICAL_LOW = 0x13`). -/
def batteryLocalCode : BatteryEvt → Nat
  | .faultDetected => 0x10
  | .criticalLow => 0x13

/-- The severity chain of `redundancy_manager_handle_battery_fault`:
`CRITICAL_LOW ⇒ CRITICAL`, `FAULT_DETECTED ⇒ DEGRADED` (the default
`WARNING` arm is unreachable for the two subscribed events). -/
def batterySeverity : BatteryEvt → FaultSeverity
  | .criticalLow => .critical
  | .faultDetected => .degraded

/-- `redundancy_manager_handle_battery_fault`: adds the fault, re-evaluates
health, and publishes a health-change event only on an edge. -/
def handleBatteryFault (m : Manager) (e : BatteryEvt) (now : Nat) :
    Manager × List RMEvent :=
  let m1 := (rmAddFault m .battery (batteryLocalCode e) (batterySeverity e) now).1
  applyHealthUpdate m1 (evaluateHealth m1)

/-- Number of active entries (the counting loops in the request handlers). -/
def countActive (m : Manager) : Nat :=
  (m.faults.filter (fun f => f.active)).length

/-- `APP_EVENT_REQUEST_REDUNDANCY_HEALTH` branch of
`redundancy_manager_handle_request`. -/
def handleHealthQuery (m : Manager) (now : Nat) : Manager × List RMEvent :=
  (m, [.healthResponse { health := m.health, active_fault_count := countActive m,
                          timestamp_ms := now }])

/-- `APP_EVENT_REQUEST_REDUNDANCY_COMPONENT_STATUS` branch: requests naming a
component id `≥ COMPONENT_COUNT` are dropped (`return`) with no response; the
fault-source field of a degraded component's response is the source of the
last active table entry (the `TODO: map fault to component` loop). -/
def handleComponentStatus (m : Manager) (comp : Nat) (now : Nat) :
    Manager × List RMEvent :=
  if componentCount ≤ comp then (m, [])
  else
    let isOk := m.component_status.getD comp true
    let fsrc :=
      if isOk then FaultSource.srcCount
      else m.faults.foldl (fun acc f => if f.active then f.source else acc) .srcCount
    (m, [.componentStatusResponse
          { component := comp, is_ok := isOk, fault_source := fsrc, timestamp_ms := now }])

/-- `APP_EVENT_REQUEST_REDUNDANCY_CLEAR_FAULT` branch: clear the named fault;
on success re-evaluate health and publish an edge event if it changed. -/
def handleClearFault (m : Manager) (s : FaultSource) (c : Nat) :
    Manager × List RMEvent :=
  let r := rmRemoveFault m s c
  if r.2 then applyHealthUpdate r.1 (evaluateHealth r.1)
  else (r.1, [])

/-- `APP_EVENT_REQUEST_REDUNDANCY_CLEAR_ALL` branch: mark every entry inactive,
then reset health to `OK`, publishing the edge event only if it changed. -/
def handleClearAll (m : Manager) : Manager × List RMEvent :=
  let m1 := { m with faults := m.faults.map fun f => { f with active := false } }
  applyHealthUpdate m1 .ok

/-- **C10.** Processing a clear-all request marks every fault-table entry
inactive and leaves the per-component degraded flags (`component_status`)
bit-for-bit unchanged — so a component marked degraded before the clear-all is
still marked degraded afterwards, even though all its faults were just
cleared. -/
theorem handleClearAll_faults_inactive_status_unchanged (m : Manager) :
    ((handleClearAll m).1.faults.all fun f => !f.active) = true ∧
    (handleClearAll m).1.component_status = m.component_status := by
  unfold handleClearAll applyHealthUpdate
  dsimp only
  constructor
  · split <;> simp [List.all_eq_true]
  · split <;> rfl

/-- The pagination loop of the `APP_EVENT_REQUEST_REDUNDANCY_FAULT_LIST`
branch: walks the fault table, appending active faults to the current chunk;
whenever the chunk reaches 4 entries it is published and `chunk_index`
advances; a final partial chunk is published if non-empty. -/
def faultListLoop (total : Nat) : List Fault → List Fault → Nat → List FaultListResponse
  | [], chunk, idx =>
    if 0 < chunk.length then
      [{ total_faults := total, chunk_index := idx,
         faults_in_chunk := chunk.length, faults := chunk }]
    else []
  | f :: fs, chunk, idx =>
    if f.active then
      let chunk' := chunk ++ [f]
      if 4 ≤ chunk'.length then
        { total_faults := total, chunk_index := idx,
          faults_in_chunk := chunk'.length, faults := chunk' } ::
          faultListLoop total fs [] (idx + 1)
      else faultListLoop total fs chunk' idx
    else faultListLoop total fs chunk idx

/-- The chunked responses emitted for one fault-list request. -/
def faultListChunks (m : Manager) : List FaultListResponse :=
  faultListLoop (countActive m) m.faults [] 0

/-- `APP_EVENT_REQUEST_REDUNDANCY_FAULT_LIST` branch of
`redundancy_manager_handle_request`. -/
def handleFaultList (m : Manager) : Manager × List RMEvent :=
  (m, (faultListChunks m).map .faultListResponse)

/-! ## Reachable manager states

`redundancy_manager_init` is the only entry point; afterwards the manager is
mutated exclusively by the event handlers subscribed there. -/

/-- Manager states reachable through the subscribed event handlers.  The tick
handler only publishes telemetry (it never touches the manager record), and
the MPPT/rail/UART fault subscriptions are commented out in
`redundancy_manager_init`, so they contribute no steps. -/
inductive Reachable : Manager → Prop where
  | init : Reachable initManager
  | batteryFault (m : Manager) (e : BatteryEvt) (now : Nat) :
      Reachable m → Reachable (handleBatteryFault m e now).1
  | healthQuery (m : Manager) (now : Nat) :
      Reachable m → Reachable (handleHealthQuery m now).1
  | componentStatus (m : Manager) (comp now : Nat) :
      Reachable m → Reachable (handleComponentStatus m comp now).1
  | faultList (m : Manager) :
      Reachable m → Reachable (handleFaultList m).1
  | clearFault (m : Manager) (s : FaultSource) (c : Nat) :
      Reachable m → Reachable (handleClearFault m s c).1
  | clearAll (m : Manager) :
      Reachable m → Reachable (handleClearAll m).1

/-! ## The at-most-one-active-entry-per-(source, code) invariant -/

/-- Two table entries never violate dedup: they are not both active with the
same `(source, code)` identity. -/
def distinctActive (f g : Fault) : Prop :=
  ¬(f.active = true ∧ g.active = true ∧ f.source = g.source ∧ f.code = g.code)

instance (f g : Fault) : Decidable (distinctActive f g) := by
  unfold distinctActive; infer_instance

/-- At most one active entry per `(source, code)` pair. -/
def UniqueActive (m : Manager) : Prop :=
  m.faults.Pairwise distinctActive

instance (m : Manager) : Decidable (UniqueActive m) := by
  unfold UniqueActive; infer_instance

theorem distinctActive_symm {f g : Fault} (h : distinctActive f g) :
    distinctActive g f := by
  intro ⟨h1, h2, h3, h4⟩
  exact h ⟨h2, h1, h3.symm, h4.symm⟩

theorem pairwise_updateAt_of_rel {α : Type} {R : α → α → Prop} (g : α → α)
    (hL : ∀ a b, R a b → R a (g b)) (hR : ∀ a b, R a b → R (g a) b) :
    ∀ (l : List α) (i : Nat), l.Pairwise R → (updateAt i g l).Pairwise R := by
  intro l
  induction l with
  | nil => intro i _; simp [updateAt_nil]
  | cons x xs ih =>
    intro i hp
    rcases List.pairwise_cons.mp hp with ⟨hhead, htail⟩
    cases i with
    | zero =>
      rw [updateAt_cons_zero]
      exact List.pairwise_cons.mpr ⟨fun y hy => hR x y (hhead y hy), htail⟩
    | succ i =>
      rw [updateAt_cons_succ]
      refine List.pairwise_cons.mpr ⟨fun y hy => ?_, ih i htail⟩
      rcases mem_updateAt i g xs y hy with h | ⟨z, hz, rfl⟩
      · exact hhead y h
      · exact hL x z (hhead z hz)

theorem pairwise_updateAt_const {α : Type} {R : α → α → Prop} (e : α) :
    ∀ (l : List α) (i : Nat), l.Pairwise R → (∀ b ∈ l, R b e ∧ R e b) →
      (updateAt i (fun _ => e) l).Pairwise R := by
  intro l
  induction l with
  | nil => intro i _ _; simp [updateAt_nil]
  | cons x xs ih =>
    intro i hp he
    rcases List.pairwise_cons.mp hp with ⟨hhead, htail⟩
    cases i with
    | zero =>
      rw [updateAt_cons_zero]
      refine List.pairwise_cons.mpr ⟨fun y hy => ?_, htail⟩
      exact (he y (List.mem_cons_of_mem _ hy)).2
    | succ i =>
      rw [updateAt_cons_succ]
      refine List.pairwise_cons.mpr
        ⟨fun y hy => ?_, ih i htail fun b hb => he b (List.mem_cons_of_mem _ hb)⟩
      rcases mem_updateAt i (fun _ => e) xs y hy with h | ⟨z, hz, rfl⟩
      · exact hhead y h
      · exact (he x (List.mem_cons_self x xs)).1

theorem pairwise_of_forall_rel {α : Type} {R : α → α → Prop}
    (h : ∀ a b, R a b) : ∀ l : List α, l.Pairwise R := by
  intro l
  induction l with
  | nil => exact List.Pairwise.nil
  | cons x xs ih => exact List.pairwise_cons.mpr ⟨fun y _ => h x y, ih⟩

theorem bumpCount_distinctActive_right {a b : Fault} (h : distinctActive a b) :
    distinctActive a (bumpCount b) := by
  intro ⟨h1, h2, h3, h4⟩
  exact h ⟨h1, h2, h3, h4⟩

theorem bumpCount_distinctActive_left {a b : Fault} (h : distinctActive a b) :
    distinctActive (bumpCount a) b := by
  intro ⟨h1, h2, h3, h4⟩
  exact h ⟨h1, h2, h3, h4⟩

theorem uniqueActive_rmAddFault (m : Manager) (s : FaultSource) (c : Nat)
    (sev : FaultSeverity) (now : Nat) (h : UniqueActive m) :
    UniqueActive (rmAddFault m s c sev now).1 := by
  unfold rmAddFault
  cases hfind : findSlot (activeKey s c) m.faults with
  | some i =>
    exact pairwise_updateAt_of_rel bumpCount
      (fun a b hab => bumpCount_distinctActive_right hab)
      (fun a b hab => bumpCount_distinctActive_left hab) m.faults i h
  | none =>
    cases hfree : findSlot (fun f : Fault => !f.active) m.faults with
    | some i =>
      have hno : ∀ f ∈ m.faults, activeKey s c f = false :=
        findSlot_none_forall _ _ hfind
      refine pairwise_updateAt_const _ m.faults i h fun b hb => ?_
      have hb' : ¬(b.active = true ∧ b.source = s ∧ b.code = c) := by
        intro ⟨h1, h2, h3⟩
        have := hno b hb
        simp [activeKey, h1, h2, h3] at this
      constructor
      · intro ⟨h1, _, h3, h4⟩
        exact hb' ⟨h1, h3, h4⟩
      · intro ⟨_, h2, h3, h4⟩
        exact hb' ⟨h2, h3.symm, h4.symm⟩
    | none => exact h

theorem deactivate_distinctActive_right (a b : Fault) :
    distinctActive a { b with active := false } := by
  intro ⟨_, h2, _, _⟩
  simp at h2

theorem uniqueActive_rmRemoveFault (m : Manager) (s : FaultSource) (c : Nat)
    (h : UniqueActive m) : UniqueActive (rmRemoveFault m s c).1 := by
  unfold rmRemoveFault
  cases hfind : findSlot (activeKey s c) m.faults with
  | some i =>
    exact pairwise_updateAt_of_rel _
      (fun a b _ => deactivate_distinctActive_right a b)
      (fun a b hab => distinctActive_symm (deactivate_distinctActive_right b a))
      m.faults i h
  | none => exact h

theorem uniqueActive_applyHealthUpdate (m : Manager) (nh : SystemHealth)
    (h : UniqueActive m) : UniqueActive (applyHealthUpdate m nh).1 := by
  unfold applyHealthUpdate
  split <;> exact h

theorem reachable_uniqueActive {m : Manager} (h : Reachable m) : UniqueActive m := by
  induction h with
  | init => decide
  | batteryFault m e now _ ih =>
    exact uniqueActive_applyHealthUpdate _ _ (uniqueActive_rmAddFault m _ _ _ _ ih)
  | healthQuery m now _ ih => exact ih
  | componentStatus m comp now _ ih =>
    unfold handleComponentStatus
    split
    · exact ih
    · exact ih
  | faultList m _ ih => exact ih
  | clearFault m s c _ ih =>
    unfold handleClearFault
    dsimp only
    split
    · exact uniqueActive_applyHealthUpdate _ _ (uniqueActive_rmRemoveFault m s c ih)
    · exact uniqueActive_rmRemoveFault m s c ih
  | clearAll m _ ih =>
    refine uniqueActive_applyHealthUpdate _ _ ?_
    unfold UniqueActive
    rw [List.pairwise_map]
    exact pairwise_of_forall_rel (fun a b => deactivate_distinctActive_right _ _) m.faults

/-- The manager after the first report of `(Battery, 1, Degraded)` from a
fresh table: used to witness the duplicate-report behaviour. -/
def onceReported : Manager :=
  (rmAddFault initManager .battery 1 .degraded 0).1

/-- **C2.** (i) Every reachable fault-table state has at most one active entry
per `(source, code)` pair.  (ii) Reporting a fault whose `(source, code)`
matches an active entry (found at slot `i`) only bumps that entry's
`occurrence_count`: the resulting state is the old one with slot `i`'s count
incremented, nothing else changes and no new slot is allocated.
(iii) Reporting the same fault twice from an empty table yields exactly one
active entry, with `occurrence_count = 2`. -/
theorem rm_fault_dedup :
    (∀ m : Manager, Reachable m → UniqueActive m) ∧
    (∀ (m : Manager) (s : FaultSource) (c : Nat) (sev : FaultSeverity) (now i : Nat),
      findSlot (activeKey s c) m.faults = some i →
      rmAddFault m s c sev now =
        ({ m with faults := updateAt i bumpCount m.faults }, .incremented)) ∧
    ((rmAddFault onceReported .battery 1 .degraded 0).1.faults.filter
        (fun f => f.active) =
      [{ source := .battery, code := 1, severity := .degraded,
         timestamp_ms := 0, count := 2, active := true }]) := by
  refine ⟨fun m h => reachable_uniqueActive h, fun m s c sev now i hfind => ?_, by decide⟩
  simp [rmAddFault, hfind]

/-- Witness for C2: the initial manager is reachable and deduplicated, and a
second report of `(Battery, 1)` finds the active entry in slot 0 and only
bumps its count. -/
theorem rm_fault_dedup_witness :
    UniqueActive initManager ∧
    (findSlot (activeKey .battery 1) onceReported.faults = some 0 ∧
      rmAddFault onceReported .battery 1 .degraded 0 =
        ({ onceReported with faults := updateAt 0 bumpCount onceReported.faults },
          .incremented)) :=
  ⟨rm_fault_dedup.1 initManager Reachable.init,
    by decide,
    rm_fault_dedup.2.1 onceReported .battery 1 .degraded 0 0 (by decide)⟩

/-! ## Health invariant and edge-triggered health-change events -/

/-- The stored health always equals the health recomputed from the fault
table: maintained by every subscribed handler. -/
def HealthInv (m : Manager) : Prop :=
  m.health = evaluateHealth m

theorem evaluateHealth_setHealth (m : Manager) (nh : SystemHealth) :
    evaluateHealth { m with health := nh } = evaluateHealth m := rfl

theorem evalScan_map_deactivate (l : List Fault) :
    ∀ hc hd, evalScan (l.map fun f => { f with active := false }) hc hd = (hc, hd) := by
  induction l with
  | nil => intro hc hd; rfl
  | cons f fs ih => intro hc hd; simp [evalScan, ih]

theorem evaluateHealth_deactivateAll (m : Manager) :
    evaluateHealth { m with faults := m.faults.map fun f => { f with active := false } } = .ok := by
  unfold evaluateHealth
  simp [evalScan_map_deactivate]

/-- Every health-change publish carries one of the three edge events. -/
theorem isHealthChange_healthChangeEvent (h : SystemHealth) :
    (healthChangeEvent h).isHealthChange = true := by
  cases h <;> rfl

/-- Whether a published event list contains a health-change edge event. -/
def hasHealthChange (evs : List RMEvent) : Bool :=
  evs.any RMEvent.isHealthChange

theorem applyHealthUpdate_spec (m1 : Manager) (nh : SystemHealth) :
    (hasHealthChange (applyHealthUpdate m1 nh).2 = true ↔ nh ≠ m1.health) ∧
    evaluateHealth (applyHealthUpdate m1 nh).1 = evaluateHealth m1 := by
  unfold applyHealthUpdate
  split
  · next hne =>
    refine ⟨?_, evaluateHealth_setHealth m1 nh⟩
    simp [hasHealthChange, isHealthChange_healthChangeEvent, hne]
  · next heq =>
    refine ⟨?_, rfl⟩
    simp [hasHealthChange]
    exact not_not.mp heq

theorem applyHealthUpdate_healthInv (m1 : Manager) (nh : SystemHealth)
    (h : nh = evaluateHealth m1) : HealthInv (applyHealthUpdate m1 nh).1 := by
  unfold HealthInv applyHealthUpdate
  split
  · next hne => rw [evaluateHealth_setHealth]; exact h
  · next heq =>
    have : nh = m1.health := not_not.mp (by simpa using heq)
    rw [← this]; exact h

theorem rmAddFault_health (m : Manager) (s : FaultSource) (c : Nat)
    (sev : FaultSeverity) (now : Nat) :
    (rmAddFault m s c sev now).1.health = m.health := by
  unfold rmAddFault
  cases findSlot (activeKey s c) m.faults with
  | some i => rfl
  | none =>
    cases findSlot (fun f : Fault => !f.active) m.faults with
    | some i => rfl
    | none => rfl

theorem rmRemoveFault_health (m : Manager) (s : FaultSource) (c : Nat) :
    (rmRemoveFault m s c).1.health = m.health := by
  unfold rmRemoveFault
  cases findSlot (activeKey s c) m.faults with
  | some i => rfl
  | none => rfl

theorem rmRemoveFault_not_cleared (m : Manager) (s : FaultSource) (c : Nat)
    (h : (rmRemoveFault m s c).2 = false) : (rmRemoveFault m s c).1 = m := by
  unfold rmRemoveFault at *
  cases hfind : findSlot (activeKey s c) m.faults with
  | some i => rw [hfind] at h; simp at h
  | none => rfl

theorem reachable_healthInv {m : Manager} (h : Reachable m) : HealthInv m := by
  induction h with
  | init => unfold HealthInv; decide
  | batteryFault m e now _ _ =>
    exact applyHealthUpdate_healthInv _ _ rfl
  | healthQuery m now _ ih => exact ih
  | componentStatus m comp now _ ih =>
    unfold handleComponentStatus
    split
    · exact ih
    · exact ih
  | faultList m _ ih => exact ih
  | clearFault m s c _ ih =>
    unfold handleClearFault
    dsimp only
    split
    · exact applyHealthUpdate_healthInv _ _ rfl
    · next hnc =>
      rw [rmRemoveFault_not_cleared m s c (Bool.not_eq_true _ ▸ Bool.eq_false_iff.mpr hnc)]
      exact ih
  | clearAll m _ _ =>
    exact applyHealthUpdate_healthInv _ _ (evaluateHealth_deactivateAll m).symm

/-- **C5.** On every reachable state, after a fault add (battery fault
handler), a fault clear, or a clear-all, a health-change event is published if
and only if the newly evaluated health differs from the previously published
health (`manager->health`); in particular an operation that leaves the
evaluated health unchanged — such as a duplicate fault report — emits no
health-change event. -/
theorem rm_health_edge_trigger (m : Manager) (hre : Reachable m) :
    (∀ (e : BatteryEvt) (now : Nat),
      hasHealthChange (handleBatteryFault m e now).2 = true ↔
        evaluateHealth (handleBatteryFault m e now).1 ≠ m.health) ∧
    (∀ (s : FaultSource) (c : Nat),
      hasHealthChange (handleClearFault m s c).2 = true ↔
        evaluateHealth (handleClearFault m s c).1 ≠ m.health) ∧
    (hasHealthChange (handleClearAll m).2 = true ↔
      evaluateHealth (handleClearAll m).1 ≠ m.health) ∧
    (∀ (e : BatteryEvt) (now : Nat),
      evaluateHealth (handleBatteryFault m e now).1 = evaluateHealth m →
        hasHealthChange (handleBatteryFault m e now).2 = false) := by
  have hbattery : ∀ (e : BatteryEvt) (now : Nat),
      hasHealthChange (handleBatteryFault m e now).2 = true ↔
        evaluateHealth (handleBatteryFault m e now).1 ≠ m.health := by
    intro e now
    unfold handleBatteryFault
    rcases applyHealthUpdate_spec (rmAddFault m .battery (batteryLocalCode e)
      (batterySeverity e) now).1 (evaluateHealth (rmAddFault m .battery
        (batteryLocalCode e) (batterySeverity e) now).1) with ⟨h1, h2⟩
    rw [h1, h2, rmAddFault_health]
  refine ⟨hbattery, ?_, ?_, ?_⟩
  · intro s c
    unfold handleClearFault
    dsimp only
    split
    · rcases applyHealthUpdate_spec (rmRemoveFault m s c).1
        (evaluateHealth (rmRemoveFault m s c).1) with ⟨h1, h2⟩
      rw [h1, h2, rmRemoveFault_health]
    · next hnc =>
      rw [rmRemoveFault_not_cleared m s c (Bool.not_eq_true _ ▸ Bool.eq_false_iff.mpr hnc)]
      simp [hasHealthChange]
      exact (reachable_healthInv hre).symm
  · unfold handleClearAll
    rcases applyHealthUpdate_spec
      { m with faults := m.faults.map fun f => { f with active := false } } .ok with ⟨h1, h2⟩
    rw [h1, h2, evaluateHealth_deactivateAll]
  · intro e now hsame
    have := (hbattery e now).not
    rw [hsame, ← reachable_healthInv hre] at this
    simpa using this.mpr (not_ne_iff.mpr rfl)

/-- Reachable state with one critical battery fault, for the C5 witness. -/
def afterCriticalLow : Manager :=
  (handleBatteryFault initManager .criticalLow 0).1

/-- Witness for C5: the clear-all and battery-fault edge-trigger instances at
the initial (reachable) state, and — at a reachable state with an active
critical fault — a duplicate report leaves the evaluated health unchanged and
emits no health-change event. -/
theorem rm_health_edge_trigger_witness :
    (hasHealthChange (handleClearAll initManager).2 = true ↔
      evaluateHealth (handleClearAll initManager).1 ≠ initManager.health) ∧
    (hasHealthChange (handleBatteryFault initManager .criticalLow 0).2 = true ↔
      evaluateHealth (handleBatteryFault initManager .criticalLow 0).1 ≠
        initManager.health) ∧
    (evaluateHealth (handleBatteryFault afterCriticalLow .criticalLow 1).1 =
        evaluateHealth afterCriticalLow ∧
      hasHealthChange (handleBatteryFault afterCriticalLow .criticalLow 1).2 = false) :=
  ⟨(rm_health_edge_trigger initManager Reachable.init).2.2.1,
    (rm_health_edge_trigger initManager Reachable.init).1 .criticalLow 0,
    by decide,
    (rm_health_edge_trigger afterCriticalLow
      (Reachable.batteryFault initManager .criticalLow 0 Reachable.init)).2.2.2
      .criticalLow 1 (by decide)⟩

/-! ## Fault-list pagination (C4)

The publish-every-4 loop is related to a straightforward chunking of the
active-fault list into groups of at most 4. -/

/-- Split a list into consecutive chunks of 4 (last chunk possibly shorter). -/
def chunks4 {α : Type} : List α → List (List α)
  | [] => []
  | a :: l => (a :: l.take 3) :: chunks4 (l.drop 3)
termination_by l => l.length
decreasing_by simp; omega

/-- Tag consecutive chunks with totals and 0-based indices, as the emitted
`fault_list_response_t` messages do. -/
def tagChunks (total : Nat) : Nat → List (List Fault) → List FaultListResponse
  | _, [] => []
  | idx, c :: cs =>
    { total_faults := total, chunk_index := idx,
      faults_in_chunk := c.length, faults := c } :: tagChunks total (idx + 1) cs

theorem chunks4_append_four {α : Type} (c r : List α) (h : c.length = 4) :
    chunks4 (c ++ r) = c :: chunks4 r := by
  cases c with
  | nil => simp at h
  | cons a l =>
    have hl : l.length = 3 := by simpa using h
    simp only [List.cons_append, chunks4]
    rw [List.take_left' hl, List.drop_left' hl]

theorem faultListLoop_eq_chunks (total : Nat) :
    ∀ (fs chunk : List Fault) (idx : Nat), chunk.length < 4 →
      faultListLoop total fs chunk idx =
        tagChunks total idx (chunks4 (chunk ++ fs.filter (fun f => f.active))) := by
  intro fs
  induction fs with
  | nil =>
    intro chunk idx h
    cases chunk with
    | nil => simp [faultListLoop, chunks4, tagChunks]
    | cons a l =>
      have hl : l.length < 3 := by simp at h; omega
      simp only [faultListLoop, List.filter_nil, List.append_nil, chunks4,
        List.take_of_length_le (Nat.le_of_lt hl),
        List.drop_eq_nil_of_le (Nat.le_of_lt hl)]
      simp [tagChunks]
  | cons f rest ih =>
    intro chunk idx h
    by_cases hfa : f.active
    · simp only [faultListLoop, hfa, if_true, List.filter_cons, if_pos hfa]
      by_cases hfull : 4 ≤ (chunk ++ [f]).length
      · have hc3 : (chunk ++ [f]).length = 4 := by
          simp at hfull ⊢; omega
        rw [if_pos hfull, ih [] (idx + 1) (by simp)]
        have : chunk ++ f :: rest.filter (fun f => f.active) =
            (chunk ++ [f]) ++ rest.filter (fun f => f.active) := by simp
        rw [this, chunks4_append_four _ _ hc3, tagChunks, hc3, List.nil_append]
      · rw [if_neg hfull]
        have hlen : (chunk ++ [f]).length < 4 := Nat.lt_of_not_le hfull
        rw [ih (chunk ++ [f]) idx hlen]
        have : chunk ++ f :: rest.filter (fun f => f.active) =
            (chunk ++ [f]) ++ rest.filter (fun f => f.active) := by simp
        rw [this]
    · simp only [faultListLoop, List.filter_cons, hfa, Bool.false_eq_true,
        if_false]
      exact ih chunk idx h

theorem faultListChunks_eq (m : Manager) :
    faultListChunks m =
      tagChunks (countActive m) 0 (chunks4 (m.faults.filter fun f => f.active)) := by
  unfold faultListChunks
  rw [faultListLoop_eq_chunks _ _ _ _ (by simp)]
  rfl

theorem chunks4_length {α : Type} :
    ∀ (n : Nat) (l : List α), l.length ≤ n →
      (chunks4 l).length = (l.length + 3) / 4 := by
  intro n
  induction n with
  | zero =>
    intro l hl
    have : l = [] := List.length_eq_zero.mp (Nat.le_zero.mp hl)
    subst this; simp [chunks4]
  | succ n ih =>
    intro l hl
    cases l with
    | nil => simp [chunks4]
    | cons a l' =>
      have h1 : (l'.drop 3).length ≤ n := by
        simp only [List.length_drop]
        have : l'.length ≤ n := by simpa using hl
        omega
      simp only [chunks4, List.length_cons, ih _ h1, List.length_drop]
      omega

theorem chunks4_mem_length_le {α : Type} :
    ∀ (n : Nat) (l : List α), l.length ≤ n →
      ∀ c ∈ chunks4 l, c.length ≤ 4 := by
  intro n
  induction n with
  | zero =>
    intro l hl c hc
    have : l = [] := List.length_eq_zero.mp (Nat.le_zero.mp hl)
    subst this; simp [chunks4] at hc
  | succ n ih =>
    intro l hl c hc
    cases l with
    | nil => simp [chunks4] at hc
    | cons a l' =>
      simp only [chunks4, List.mem_cons] at hc
      rcases hc with rfl | hc
      · simp only [List.length_cons, List.length_take]
        omega
      · have h1 : (l'.drop 3).length ≤ n := by
          simp only [List.length_drop]
          have : l'.length ≤ n := by simpa using hl
          omega
        exact ih _ h1 c hc

theorem chunks4_flatten {α : Type} :
    ∀ (n : Nat) (l : List α), l.length ≤ n → (chunks4 l).flatten = l := by
  intro n
  induction n with
  | zero =>
    intro l hl
    have : l = [] := List.length_eq_zero.mp (Nat.le_zero.mp hl)
    subst this; simp [chunks4]
  | succ n ih =>
    intro l hl
    cases l with
    | nil => simp [chunks4]
    | cons a l' =>
      have h1 : (l'.drop 3).length ≤ n := by
        simp only [List.length_drop]
        have : l'.length ≤ n := by simpa using hl
        omega
      simp only [chunks4, List.flatten_cons, ih _ h1, List.cons_append]
      rw [List.take_append_drop]

theorem tagChunks_length (total : Nat) :
    ∀ (cs : List (List Fault)) (idx : Nat), (tagChunks total idx cs).length = cs.length := by
  intro cs
  induction cs with
  | nil => intro idx; rfl
  | cons c cs ih => intro idx; simp [tagChunks, ih]

theorem tagChunks_map_total (total : Nat) :
    ∀ (cs : List (List Fault)) (idx : Nat),
      (tagChunks total idx cs).map (fun r => r.total_faults) =
        List.replicate cs.length total := by
  intro cs
  induction cs with
  | nil => intro idx; rfl
  | cons c cs ih => intro idx; simp [tagChunks, ih, List.replicate_succ]

theorem tagChunks_map_index (total : Nat) :
    ∀ (cs : List (List Fault)) (idx : Nat),
      (tagChunks total idx cs).map (fun r => r.chunk_index) =
        List.range' idx cs.length := by
  intro cs
  induction cs with
  | nil => intro idx; rfl
  | cons c cs ih => intro idx; simp [tagChunks, ih, List.range'_succ]

theorem tagChunks_map_inChunk (total : Nat) :
    ∀ (cs : List (List Fault)) (idx : Nat),
      (tagChunks total idx cs).map (fun r => r.faults_in_chunk) =
        (tagChunks total idx cs).map (fun r => r.faults.length) := by
  intro cs
  induction cs with
  | nil => intro idx; rfl
  | cons c cs ih => intro idx; simp [tagChunks, ih]

theorem tagChunks_map_faults (total : Nat) :
    ∀ (cs : List (List Fault)) (idx : Nat),
      (tagChunks total idx cs).map (fun r => r.faults) = cs := by
  intro cs
  induction cs with
  | nil => intro idx; rfl
  | cons c cs ih => intro idx; simp [tagChunks, ih]

theorem tagChunks_all_le (total : Nat) :
    ∀ (cs : List (List Fault)) (idx : Nat), (∀ c ∈ cs, c.length ≤ 4) →
      ((tagChunks total idx cs).all fun r => decide (r.faults_in_chunk ≤ 4)) = true := by
  intro cs
  induction cs with
  | nil => intro idx _; rfl
  | cons c cs ih =>
    intro idx h
    simp only [tagChunks, List.all_cons, Bool.and_eq_true, decide_eq_true_eq]
    exact ⟨h c (List.mem_cons_self c cs),
      ih (idx + 1) fun c' hc' => h c' (List.mem_cons_of_mem _ hc')⟩

/-- Concrete table with 10 active faults, for the spec's pagination example. -/
def tenFaults : Manager :=
  { initManager with
      faults :=
        ((List.range 10).map fun i =>
          { source := .battery, code := i, severity := .warning,
            timestamp_ms := 0, count := 1, active := true }) ++
        List.replicate 6 zeroFault }

/-- **C4.** For every fault-table state with `n` active faults, a fault-list
request emits exactly `⌈n/4⌉` responses; every response carries
`total_faults = n`; the `chunk_index` fields are `0, 1, 2, ...` in emission
order; `faults_in_chunk` equals the number of faults carried and never exceeds
4; concatenating the carried chunks reproduces the active-fault list exactly
(each active fault appears in exactly one chunk).  For the spec's example of
10 active faults, exactly 3 responses are emitted with `faults_in_chunk`
sequence `4, 4, 2` and `total_faults = 10` in each. -/
theorem rm_fault_list_pagination :
    (∀ m : Manager,
      (faultListChunks m).length = (countActive m + 3) / 4 ∧
      (faultListChunks m).map (fun r => r.total_faults) =
        List.replicate (faultListChunks m).length (countActive m) ∧
      (faultListChunks m).map (fun r => r.chunk_index) =
        List.range (faultListChunks m).length ∧
      (faultListChunks m).map (fun r => r.faults_in_chunk) =
        (faultListChunks m).map (fun r => r.faults.length) ∧
      ((faultListChunks m).all fun r => decide (r.faults_in_chunk ≤ 4)) = true ∧
      ((faultListChunks m).map (fun r => r.faults)).flatten =
        m.faults.filter (fun f => f.active)) ∧
    (faultListChunks tenFaults).map (fun r => r.faults_in_chunk) = [4, 4, 2] ∧
    (faultListChunks tenFaults).map (fun r => r.total_faults) = [10, 10, 10] := by
  refine ⟨fun m => ?_, by decide, by decide⟩
  have hA := faultListChunks_eq m
  set A := m.faults.filter (fun f => f.active) with hAdef
  have hcount : countActive m = A.length := by
    unfold countActive; rw [hAdef]
  refine ⟨?_, ?_, ?_, ?_, ?_, ?_⟩
  · rw [hA, tagChunks_length, chunks4_length A.length A (Nat.le_refl _), hcount]
  · rw [hA, tagChunks_map_total, tagChunks_length, hcount]
  · rw [hA, tagChunks_map_index, tagChunks_length, List.range_eq_range']
  · rw [hA, tagChunks_map_inChunk]
  · rw [hA]
    exact tagChunks_all_le _ _ _ (chunks4_mem_length_le A.length A (Nat.le_refl _))
  · rw [hA, tagChunks_map_faults, chunks4_flatten A.length A (Nat.le_refl _)]

/-! ## Invalid requests (C9)

The code mutates nothing on an invalid request, but an out-of-range
component-status query is silently dropped (`return;` before any publish):
no "not found"/"invalid" response event reaches the requester. -/

/-- **C9 counterexample.** Querying component id `COMPONENT_COUNT` (one past
the last valid id) leaves the state untouched but publishes *no* response
event at all — contradicting the claim that an explicit "not found"/"invalid"
status is returned to the caller. -/
theorem rm_invalid_component_query_silent :
    handleComponentStatus initManager componentCount 0 = (initManager, []) := by
  decide

/-- **C9 (amended).** Invalid requests mutate no state: a component-status
query naming an id `≥ COMPONENT_COUNT` is dropped with no state change and no
response event; clearing a `(source, code)` with no active entry leaves the
state unchanged, with `redundancy_manager_remove_fault` reporting `false` to
its (internal) caller and the request handler publishing nothing. -/
theorem rm_invalid_request_no_mutation :
    (∀ (m : Manager) (comp now : Nat), componentCount ≤ comp →
      handleComponentStatus m comp now = (m, [])) ∧
    (∀ (m : Manager) (s : FaultSource) (c : Nat),
      (∀ f ∈ m.faults, ¬(f.active = true ∧ f.source = s ∧ f.code = c)) →
      rmRemoveFault m s c = (m, false)) ∧
    (∀ (m : Manager) (s : FaultSource) (c : Nat),
      (∀ f ∈ m.faults, ¬(f.active = true ∧ f.source = s ∧ f.code = c)) →
      handleClearFault m s c = (m, [])) := by
  have hrm : ∀ (m : Manager) (s : FaultSource) (c : Nat),
      (∀ f ∈ m.faults, ¬(f.active = true ∧ f.source = s ∧ f.code = c)) →
      rmRemoveFault m s c = (m, false) := by
    intro m s c h
    have : findSlot (activeKey s c) m.faults = none :=
      findSlot_eq_none _ _ fun f hf => activeKey_eq_false (h f hf)
    simp [rmRemoveFault, this]
  refine ⟨fun m comp now h => ?_, hrm, fun m s c h => ?_⟩
  · simp [handleComponentStatus, h]
  · unfold handleClearFault
    rw [hrm m s c h]
    rfl

/-- Witness for C9 (amended): a fresh table has no active `(Battery, 1)`
entry and component id 12 is out of range; both invalid requests are no-ops. -/
theorem rm_invalid_request_no_mutation_witness :
    (componentCount ≤ 12 ∧
      handleComponentStatus initManager 12 5 = (initManager, [])) ∧
    ((∀ f ∈ initManager.faults,
        ¬(f.active = true ∧ f.source = FaultSource.battery ∧ f.code = 1)) ∧
      rmRemoveFault initManager .battery 1 = (initManager, false) ∧
      handleClearFault initManager .battery 1 = (initManager, [])) :=
  ⟨⟨by decide, rm_invalid_request_no_mutation.1 initManager 12 5 (by decide)⟩,
    by decide,
    rm_invalid_request_no_mutation.2.1 initManager .battery 1 (by decide),
    rm_invalid_request_no_mutation.2.2 initManager .battery 1 (by decide)⟩

/-! ## Logging failover policy (`logging.c`, C8)

`logging.c` holds three `uart_events_t *` globals: `g_primary_uart`,
`g_aux_uart` and `g_active_uart`.  We embed a UART service instance by the two
fields the failover logic reads (`port`, `initialized`), pointers by
`Option UartSvc`, and the `g_active_uart` pointer by which of the two globals
it currently aliases (it is only ever assigned `g_primary_uart` or
`g_aux_uart`). -/

/-- The observable part of a `uart_events_t` instance. -/
structure UartSvc where
  port : Nat
  initialized : Bool
  deriving DecidableEq, Repr

/-- Which global `g_active_uart` currently aliases. -/
inductive ActiveSel where
  | primarySel | auxSel
  deriving DecidableEq, Repr

/-- The file-scope failover state of `logging.c`. -/
structure LoggingState where
  primary : Option UartSvc
  aux : Option UartSvc
  active : ActiveSel
  deriving DecidableEq, Repr

/-- The `uart_events_t *` the `g_active_uart` pointer resolves to. -/
def activeUart (st : LoggingState) : Option UartSvc :=
  match st.active with
  | .primarySel => st.primary
  | .auxSel => st.aux

/-- `logging_init`: `g_active_uart = g_primary_uart`. -/
def loggingInit (primary aux : Option UartSvc) : LoggingState :=
  { primary := primary, aux := aux, active := .primarySel }

/-- The two redundancy events `logging.c` subscribes to. -/
inductive LogRedundancyEvt where
  | componentDegraded (d : ComponentDegradation)
  | componentRecovered (comp : Nat)
  deriving DecidableEq, Repr

/-- `logging_handle_redundancy`: on a degradation naming
`COMPONENT_UART_PRIMARY`, switch the active pointer to the aux UART when that
instance exists and is initialized (note: `fallback_available` is not
consulted); on a recovery naming `COMPONENT_UART_PRIMARY`, switch back to the
primary pointer unconditionally. -/
def loggingHandleRedundancy (st : LoggingState) (e : LogRedundancyEvt) : LoggingState :=
  match e with
  | .componentDegraded d =>
    if d.component = componentUartPrimary then
      match st.aux with
      | some u => if u.initialized then { st with active := .auxSel } else st
      | none => st
    else st
  | .componentRecovered comp =>
    if comp = componentUartPrimary then { st with active := .primarySel } else st

/-- The log packet assembled by `send_log_packet` (header constants such as
version / OBC destination / LOG message type come from the external
`packet.h` collaborator and are fixed; the fields below are the ones this
layer chooses). -/
structure LogPacket where
  sequence : Nat
  is_last_chunk : Bool
  payload_len : Nat
  payload : List Nat
  deriving DecidableEq, Repr

/-- `send_log_packet`: a no-op when the pending payload is empty or the
active UART pointer is null/uninitialized; otherwise the packet goes out
through the active instance's port via `uart_events_send_packet`. -/
def sendLogPacket (st : LoggingState) (payload : List Nat) (seq : Nat)
    (is_last : Bool) : Option (Nat × LogPacket) :=
  if payload.length = 0 then none
  else
    match activeUart st with
    | none => none
    | some u =>
      if u.initialized then
        some (u.port, { sequence := seq, is_last_chunk := is_last,
                        payload_len := payload.length, payload := payload })
      else none

/-- **C8.** If the secondary UART instance exists and is initialized (as
guaranteed by the init order in `main.c`), a component-degradation event
naming the primary UART with `fallback_available = true` switches the active
transport to the secondary, so every subsequent non-empty log send routes
through the secondary's port; a component-recovery event naming the primary
UART switches the active transport back to primary unconditionally — no
readiness check of any kind. -/
theorem logging_failover (st : LoggingState) (u : UartSvc)
    (d : ComponentDegradation)
    (haux : st.aux = some u) (hinit : u.initialized = true)
    (hcomp : d.component = componentUartPrimary)
    (_hfb : d.fallback_available = true) :
    ((loggingHandleRedundancy st (.componentDegraded d)).active = .auxSel ∧
      ∀ (payload : List Nat) (seq : Nat) (last : Bool), payload ≠ [] →
        (sendLogPacket (loggingHandleRedundancy st (.componentDegraded d))
          payload seq last).map Prod.fst = some u.port) ∧
    (∀ st' : LoggingState,
      (loggingHandleRedundancy st' (.componentRecovered componentUartPrimary)).active =
        .primarySel) := by
  have hstep : loggingHandleRedundancy st (.componentDegraded d) =
      { st with active := .auxSel } := by
    simp [loggingHandleRedundancy, hcomp, haux, hinit]
  refine ⟨⟨by rw [hstep], fun payload seq last hp => ?_⟩, fun st' => ?_⟩
  · rw [hstep]
    have hlen : ¬ payload.length = 0 :=
      Nat.pos_iff_ne_zero.mp (List.length_pos.mpr hp)
    simp [sendLogPacket, activeUart, haux, hinit, hlen]
  · simp [loggingHandleRedundancy]

/-- Witness for C8: the deployed configuration (both UARTs initialized, ports
1 and 3 as in `main.c`), a primary-UART degradation with fallback available,
and a one-byte log payload routed through port 3 after the switch. -/
theorem logging_failover_witness :
    ((loggingInit (some ⟨1, true⟩) (some ⟨3, true⟩)).aux = some ⟨3, true⟩ ∧
      (⟨3, true⟩ : UartSvc).initialized = true ∧
      (⟨componentUartPrimary, .uart, true⟩ : ComponentDegradation).component =
        componentUartPrimary ∧
      ([42] : List Nat) ≠ []) ∧
    ((loggingHandleRedundancy (loggingInit (some ⟨1, true⟩) (some ⟨3, true⟩))
        (.componentDegraded ⟨componentUartPrimary, .uart, true⟩)).active = .auxSel ∧
      (sendLogPacket
          (loggingHandleRedundancy (loggingInit (some ⟨1, true⟩) (some ⟨3, true⟩))
            (.componentDegraded ⟨componentUartPrimary, .uart, true⟩))
          [42] 0 true).map Prod.fst = some 3) ∧
    (loggingHandleRedundancy (loggingInit (some ⟨1, true⟩) (some ⟨3, true⟩))
        (.componentRecovered componentUartPrimary)).active = .primarySel :=
  have h := logging_failover (loggingInit (some ⟨1, true⟩) (some ⟨3, true⟩))
    ⟨3, true⟩ ⟨componentUartPrimary, .uart, true⟩ (by decide) (by decide)
    (by decide) (by decide)
  ⟨⟨by decide, by decide, by decide, by decide⟩,
    ⟨h.1.1, h.1.2 [42] 0 true (by decide)⟩,
    h.2 (loggingInit (some ⟨1, true⟩) (some ⟨3, true⟩))⟩

/-! ## UART packet reassembly engine (`uart_events.c`, C6 and C7)

The framing constants (`OSUSAT_START_BYTE`, `OSUSAT_HEADER_SIZE`,
`OSUSAT_FRAME_OVERHEAD`, `UART_RX_MAX_PACKET_SIZE`, `UART_PACKET_POOL_SIZE`)
and the codec `osusat_packet_unpack` live in the external `packet.h`
collaborator, so the machine is parametrized over them: every theorem below
holds for all values.  Bytes are `Nat`s; a decoded packet is an arbitrary
type `P`; `unpack` returns `Except code packet` mirroring
`OSUSatPacketResult`.  Each per-byte step also records the (pool slot, offset)
of every `current_buf[...] = byte` store it performs, so buffer-bounds safety
is a statement about those recorded writes. -/

/-- The external framing/codec parameters consumed by `uart_events.c`. -/
structure UartConfig (P : Type) where
  startByte : Nat
  headerSize : Nat
  frameOverhead : Nat
  maxPacketSize : Nat
  poolSize : Nat
  unpack : List Nat → Except Nat P

/-- The reassembly states of `uart_events_t::rx_state`. -/
inductive RxState where
  | waitStart | readHeader | readPayload
  deriving DecidableEq, Repr

/-- The receive-path fields of `uart_events_t` (the `port` and `initialized`
fields play no role in the per-byte machine). -/
structure UartState where
  rx_state : RxState
  pool_index : Nat
  decode_index : Nat
  expected_packet_len : Nat
  packet_pool : List (List Nat)
  rx_byte_count : Nat
  rx_packet_count : Nat
  rx_crc_error_count : Nat
  deriving DecidableEq, Repr

/-- Events published by the reassembly engine
(`UART_EVENT_PACKET_RECEIVED` / `UART_EVENT_ERROR_DETECTED`). -/
inductive UartEvent (P : Type) where
  | packetReceived (p : P)
  | errorDetected (code : Nat)
  deriving DecidableEq, Repr

/-- `uart_events_init`: zeroed state, `rx_state = RX_STATE_WAIT_START_BYTE`. -/
def uartInit {P : Type} (cfg : UartConfig P) : UartState :=
  { rx_state := .waitStart, pool_index := 0, decode_index := 0,
    expected_packet_len := 0,
    packet_pool := List.replicate cfg.poolSize (List.replicate cfg.maxPacketSize 0),
    rx_byte_count := 0, rx_packet_count := 0, rx_crc_error_count := 0 }

/-- `current_buf = uart->packet_pool[uart->pool_index]`. -/
def currentBuf (u : UartState) : List Nat :=
  u.packet_pool.getD u.pool_index []

/-- `current_buf[i] = b`. -/
def bufWrite (u : UartState) (i b : Nat) : UartState :=
  { u with packet_pool := updateAt u.pool_index (fun buf => buf.set i b) u.packet_pool }

/-- `uart_process_byte`: the overflow guard followed by the three-state
reassembly machine.  Returns the new state, the published events, and the
recorded buffer writes `(pool slot, offset)`. -/
def uartProcessByte {P : Type} (cfg : UartConfig P) (u0 : UartState) (b : Nat) :
    UartState × List (UartEvent P) × List (Nat × Nat) :=
  let u := if cfg.maxPacketSize ≤ u0.decode_index then
             { u0 with rx_state := .waitStart, decode_index := 0 } else u0
  match u.rx_state with
  | .waitStart =>
    if b = cfg.startByte then
      ({ bufWrite u 0 b with decode_index := 1, rx_state := .readHeader },
        [], [(u.pool_index, 0)])
    else (u, [], [])
  | .readHeader =>
    let u1 := { bufWrite u u.decode_index b with decode_index := u.decode_index + 1 }
    if 1 + cfg.headerSize ≤ u1.decode_index then
      let payloadLen := (currentBuf u1).getD (1 + cfg.headerSize - 1) 0
      ({ u1 with expected_packet_len := cfg.frameOverhead + payloadLen,
                 rx_state := .readPayload }, [], [(u.pool_index, u.decode_index)])
    else (u1, [], [(u.pool_index, u.decode_index)])
  | .readPayload =>
    let u1 := { bufWrite u u.decode_index b with decode_index := u.decode_index + 1 }
    if u1.expected_packet_len ≤ u1.decode_index then
      match cfg.unpack ((currentBuf u1).take u1.expected_packet_len) with
      | .ok p =>
        ({ u1 with rx_packet_count := u1.rx_packet_count + 1,
                   pool_index := (u1.pool_index + 1) % cfg.poolSize,
                   rx_state := .waitStart, decode_index := 0 },
          [.packetReceived p], [(u.pool_index, u.decode_index)])
      | .error e =>
        ({ u1 with rx_crc_error_count := u1.rx_crc_error_count + 1,
                   rx_state := .waitStart, decode_index := 0 },
          [.errorDetected e], [(u.pool_index, u.decode_index)])
    else (u1, [], [(u.pool_index, u.decode_index)])

/-- Run the per-byte machine over a byte list, concatenating outputs. -/
def uartRun {P : Type} (cfg : UartConfig P) (u : UartState) :
    List Nat → UartState × List (UartEvent P) × List (Nat × Nat)
  | [] => (u, [], [])
  | b :: bs =>
    let o := uartProcessByte cfg u b
    let r := uartRun cfg o.1 bs
    (r.1, o.2.1 ++ r.2.1, o.2.2 ++ r.2.2)

/-- One `hal_uart_read` chunk of `uart_process_incoming_stream`:
`rx_byte_count += count` followed by the per-byte loop. -/
def uartProcessChunk {P : Type} (cfg : UartConfig P) (u : UartState) (c : List Nat) :
    UartState × List (UartEvent P) × List (Nat × Nat) :=
  uartRun cfg { u with rx_byte_count := u.rx_byte_count + c.length } c

/-- `uart_process_incoming_stream` draining a sequence of chunks. -/
def uartProcessStream {P : Type} (cfg : UartConfig P) (u : UartState) :
    List (List Nat) → UartState × List (UartEvent P) × List (Nat × Nat)
  | [] => (u, [], [])
  | c :: cs =>
    let o := uartProcessChunk cfg u c
    let r := uartProcessStream cfg o.1 cs
    (r.1, o.2.1 ++ r.2.1, o.2.2 ++ r.2.2)

/-- Overwrite the `rx_byte_count` field. -/
def setCount (n : Nat) (u : UartState) : UartState :=
  { u with rx_byte_count := n }

/-- The per-byte machine never reads nor writes `rx_byte_count`. -/
theorem uartProcessByte_setCount {P : Type} (cfg : UartConfig P)
    (u : UartState) (b n : Nat) :
    uartProcessByte cfg (setCount n u) b =
      (setCount n (uartProcessByte cfg u b).1, (uartProcessByte cfg u b).2) := by
  cases u with
  | mk st pi di ep pp bc pc ec =>
    unfold uartProcessByte setCount
    by_cases hg : cfg.maxPacketSize ≤ di
    · simp only [if_pos hg]
      by_cases hb : b = cfg.startByte <;> simp [bufWrite, hb]
    · simp only [if_neg hg]
      cases st
      · by_cases hb : b = cfg.startByte <;> simp [bufWrite, hb]
      · dsimp only
        split <;> simp [bufWrite, currentBuf]
      · simp only [bufWrite, currentBuf]
        by_cases hle : ep ≤ di + 1
        · simp only [if_pos hle]
          split
          · next p heq => simp [heq, setCount]
          · next e heq => simp [heq, setCount]
        · simp only [if_neg hle]

theorem uartRun_setCount {P : Type} (cfg : UartConfig P) (bs : List Nat) :
    ∀ (u : UartState) (n : Nat),
      uartRun cfg (setCount n u) bs =
        (setCount n (uartRun cfg u bs).1, (uartRun cfg u bs).2) := by
  induction bs with
  | nil => intro u n; rfl
  | cons b bs ih =>
    intro u n
    simp only [uartRun, uartProcessByte_setCount, ih]

theorem uartRun_append {P : Type} (cfg : UartConfig P) (xs : List Nat) :
    ∀ (ys : List Nat) (u : UartState),
      uartRun cfg u (xs ++ ys) =
        ((uartRun cfg (uartRun cfg u xs).1 ys).1,
          (uartRun cfg u xs).2.1 ++ (uartRun cfg (uartRun cfg u xs).1 ys).2.1,
          (uartRun cfg u xs).2.2 ++ (uartRun cfg (uartRun cfg u xs).1 ys).2.2) := by
  induction xs with
  | nil => intro ys u; rfl
  | cons x xs ih =>
    intro ys u
    simp only [List.cons_append, uartRun, List.append_eq, ih, List.append_assoc]

theorem setCount_rx (n : Nat) (u : UartState) : (setCount n u).rx_byte_count = n := rfl

theorem setCount_setCount (a b : Nat) (u : UartState) :
    setCount a (setCount b u) = setCount a u := rfl

/-- Canonical form: a chunked stream behaves as bumping `rx_byte_count` by the
total byte count and running the per-byte machine on the flattened stream. -/
theorem uartProcessStream_eq_run {P : Type} (cfg : UartConfig P) :
    ∀ (chs : List (List Nat)) (u : UartState),
      uartProcessStream cfg u chs =
        (setCount (u.rx_byte_count + chs.flatten.length)
          (uartRun cfg u chs.flatten).1,
          (uartRun cfg u chs.flatten).2) := by
  intro chs
  induction chs with
  | nil =>
    intro u
    simp only [uartProcessStream, List.flatten_nil, List.length_nil,
      Nat.add_zero, uartRun]
    rfl
  | cons c cs ih =>
    intro u
    have hchunk : uartProcessChunk cfg u c =
        (setCount (u.rx_byte_count + c.length) (uartRun cfg u c).1,
          (uartRun cfg u c).2) := by
      unfold uartProcessChunk
      exact uartRun_setCount cfg c u _
    simp only [uartProcessStream]
    rw [hchunk]
    dsimp only
    rw [ih]
    rw [uartRun_setCount]
    simp only [setCount_rx, setCount_setCount, List.flatten_cons,
      uartRun_append, List.length_append, List.append_assoc, Nat.add_assoc]

/-- **C6.** Chunk-size independence: feeding the reassembly engine any two
chunk decompositions of the same byte sequence — in particular one byte at a
time versus arbitrary chunks — produces the same final state and the same
ordered sequence of decoded-packet and decode-error events (and the same
buffer writes), for every codec and framing configuration. -/
theorem uart_chunk_independence {P : Type} (cfg : UartConfig P) (u : UartState)
    (ch1 ch2 : List (List Nat)) (h : ch1.flatten = ch2.flatten) :
    uartProcessStream cfg u ch1 = uartProcessStream cfg u ch2 := by
  rw [uartProcessStream_eq_run, uartProcessStream_eq_run, h]

/-- Concrete configuration for the UART witnesses (the length-decoding codec
is arbitrary: the theorems hold for every `unpack`). -/
def cfgW : UartConfig Nat :=
  { startByte := 170, headerSize := 7, frameOverhead := 10,
    maxPacketSize := 64, poolSize := 2,
    unpack := fun l => .ok l.length }

/-- Witness for C6: two different chunkings of the bytes `[170, 1, 2]` —
singleton chunks versus one chunk — give identical results. -/
theorem uart_chunk_independence_witness :
    ([[170], [1], [2]] : List (List Nat)).flatten =
        ([[170, 1, 2]] : List (List Nat)).flatten ∧
    uartProcessStream cfgW (uartInit cfgW) [[170], [1], [2]] =
      uartProcessStream cfgW (uartInit cfgW) [[170, 1, 2]] :=
  ⟨by decide,
    uart_chunk_independence cfgW (uartInit cfgW) [[170], [1], [2]]
      [[170, 1, 2]] (by decide)⟩

theorem uartProcessByte_writes_lt {P : Type} (cfg : UartConfig P)
    (hmax : 0 < cfg.maxPacketSize) (u : UartState) (b : Nat) :
    ∀ w ∈ (uartProcessByte cfg u b).2.2, w.2 < cfg.maxPacketSize := by
  cases u with
  | mk st pi di ep pp bc pc ec =>
    unfold uartProcessByte
    by_cases hg : cfg.maxPacketSize ≤ di
    · simp only [if_pos hg]
      by_cases hb : b = cfg.startByte
      · simp [hb]
        omega
      · simp [hb]
    · have hdi : di < cfg.maxPacketSize := Nat.lt_of_not_le hg
      simp only [if_neg hg]
      cases st
      · by_cases hb : b = cfg.startByte
        · simp [hb]
          omega
        · simp [hb]
      · dsimp only
        split <;> simp <;> omega
      · dsimp only
        split
        · split <;> simp <;> omega
        · simp; omega

theorem uartRun_writes_lt {P : Type} (cfg : UartConfig P)
    (hmax : 0 < cfg.maxPacketSize) (bs : List Nat) :
    ∀ (u : UartState), ∀ w ∈ (uartRun cfg u bs).2.2, w.2 < cfg.maxPacketSize := by
  induction bs with
  | nil => intro u w hw; simp [uartRun] at hw
  | cons b bs ih =>
    intro u w hw
    simp only [uartRun, List.mem_append] at hw
    rcases hw with hw | hw
    · exact uartProcessByte_writes_lt cfg hmax u b w hw
    · exact ih _ w hw

/-- **C7.** (i) Whenever the write cursor has reached the pool-buffer capacity
(`decode_index >= UART_RX_MAX_PACKET_SIZE`), processing the next byte behaves
exactly as from the force-reset state (`WaitStart`, cursor 0): the guard
discards the partial frame.  (ii) Consequently, for an arbitrary — including
garbage — chunked input stream, every recorded write into a pool buffer lands
at an offset strictly below the buffer capacity. -/
theorem uart_buffer_write_bound {P : Type} (cfg : UartConfig P)
    (hmax : 0 < cfg.maxPacketSize) :
    (∀ (u : UartState) (b : Nat), cfg.maxPacketSize ≤ u.decode_index →
      uartProcessByte cfg u b =
        uartProcessByte cfg { u with rx_state := .waitStart, decode_index := 0 } b) ∧
    (∀ (u : UartState) (chs : List (List Nat)),
      ∀ w ∈ (uartProcessStream cfg u chs).2.2, w.2 < cfg.maxPacketSize) := by
  constructor
  · intro u b hover
    have h0 : ¬ cfg.maxPacketSize ≤ (0 : Nat) := by omega
    cases u with
    | mk st pi di ep pp bc pc ec =>
      unfold uartProcessByte
      simp only [if_pos hover]
      simp only [if_neg h0]
  · intro u chs w hw
    rw [uartProcessStream_eq_run] at hw
    exact uartRun_writes_lt cfg hmax chs.flatten u w hw

/-- A mid-payload state whose cursor sits exactly at the pool-buffer capacity
(for the C7 witness). -/
def overrunState : UartState :=
  { uartInit cfgW with decode_index := 64, rx_state := .readPayload }

/-- Witness for C7: with capacity 64, a state whose cursor sits at capacity is
stepped identically to the reset state, and the write recorded while decoding
a start byte from the initial state lands below capacity. -/
theorem uart_buffer_write_bound_witness :
    (0 : Nat) < cfgW.maxPacketSize ∧
    (cfgW.maxPacketSize ≤ overrunState.decode_index ∧
      uartProcessByte cfgW overrunState 7 =
        uartProcessByte cfgW
          { overrunState with rx_state := .waitStart, decode_index := 0 } 7) ∧
    ((0, 0) ∈ (uartProcessStream cfgW (uartInit cfgW) [[170]]).2.2 ∧
      ((0, 0) : Nat × Nat).2 < cfgW.maxPacketSize) :=
  ⟨by decide,
    ⟨by decide,
      (uart_buffer_write_bound cfgW (by decide)).1 overrunState 7 (by decide)⟩,
    ⟨by decide,
      (uart_buffer_write_bound cfgW (by decide)).2 (uartInit cfgW) [[170]]
        (0, 0) (by decide)⟩⟩

end OSUSat
